import Mathlib

/-!
Verification of the `CustomESRequestSerializer` of volto-searchkit-block
(`src/components/Searchkit/SearchBarSection.jsx`).

The serializer is a pure function from a search state (query string, sort,
paging, selected facet filters) to an Elasticsearch request body.  We embed
it shallowly: JavaScript objects become `Json` values (association lists of
string keys, preserving insertion order, which is what `Object.keys`
iterates in), arrays become lists, strings become `String`, numbers become
`Int`.  Each JavaScript helper is translated to a Lean definition of the
same name.
-/

namespace Searchkit

/-- JSON-like values: the serializer's output universe.  An object is an
ordered association list of key/value pairs (JavaScript objects preserve
string-key insertion order). -/
inductive Json where
  | str : String → Json
  | num : Int → Json
  | arr : List Json → Json
  | obj : List (String × Json) → Json

mutual

/-- Structural decidable equality for `Json` (the deriving handler does not
support this nested inductive). -/
def jsonDecEq : (a b : Json) → Decidable (a = b)
  | .str s1, .str s2 =>
    match decEq s1 s2 with
    | isTrue h => isTrue (by rw [h])
    | isFalse h => isFalse (by intro hc; cases hc; exact h rfl)
  | .str _, .num _ => isFalse (by intro hc; cases hc)
  | .str _, .arr _ => isFalse (by intro hc; cases hc)
  | .str _, .obj _ => isFalse (by intro hc; cases hc)
  | .num _, .str _ => isFalse (by intro hc; cases hc)
  | .num n1, .num n2 =>
    match decEq n1 n2 with
    | isTrue h => isTrue (by rw [h])
    | isFalse h => isFalse (by intro hc; cases hc; exact h rfl)
  | .num _, .arr _ => isFalse (by intro hc; cases hc)
  | .num _, .obj _ => isFalse (by intro hc; cases hc)
  | .arr _, .str _ => isFalse (by intro hc; cases hc)
  | .arr _, .num _ => isFalse (by intro hc; cases hc)
  | .arr l1, .arr l2 =>
    match jsonListDecEq l1 l2 with
    | isTrue h => isTrue (by rw [h])
    | isFalse h => isFalse (by intro hc; cases hc; exact h rfl)
  | .arr _, .obj _ => isFalse (by intro hc; cases hc)
  | .obj _, .str _ => isFalse (by intro hc; cases hc)
  | .obj _, .num _ => isFalse (by intro hc; cases hc)
  | .obj _, .arr _ => isFalse (by intro hc; cases hc)
  | .obj o1, .obj o2 =>
    match jsonObjDecEq o1 o2 with
    | isTrue h => isTrue (by rw [h])
    | isFalse h => isFalse (by intro hc; cases hc; exact h rfl)

/-- Decidable equality for `Json` array elements. -/
def jsonListDecEq : (l1 l2 : List Json) → Decidable (l1 = l2)
  | [], [] => isTrue rfl
  | [], _ :: _ => isFalse (by intro hc; cases hc)
  | _ :: _, [] => isFalse (by intro hc; cases hc)
  | x :: xs, y :: ys =>
    match jsonDecEq x y, jsonListDecEq xs ys with
    | isTrue h1, isTrue h2 => isTrue (by rw [h1, h2])
    | isFalse h1, _ => isFalse (by intro hc; cases hc; exact h1 rfl)
    | _, isFalse h2 => isFalse (by intro hc; cases hc; exact h2 rfl)

/-- Decidable equality for `Json` object entry lists. -/
def jsonObjDecEq : (o1 o2 : List (String × Json)) → Decidable (o1 = o2)
  | [], [] => isTrue rfl
  | [], _ :: _ => isFalse (by intro hc; cases hc)
  | _ :: _, [] => isFalse (by intro hc; cases hc)
  | (k1, v1) :: xs, (k2, v2) :: ys =>
    match decEq k1 k2, jsonDecEq v1 v2, jsonObjDecEq xs ys with
    | isTrue h0, isTrue h1, isTrue h2 => isTrue (by rw [h0, h1, h2])
    | isFalse h0, _, _ => isFalse (by intro hc; cases hc; exact h0 rfl)
    | _, isFalse h1, _ => isFalse (by intro hc; cases hc; exact h1 rfl)
    | _, _, isFalse h2 => isFalse (by intro hc; cases hc; exact h2 rfl)

end

instance : DecidableEq Json := jsonDecEq

/-- First-match lookup in an ordered association list, i.e. JavaScript
property access `o[k]` for objects built without duplicate keys. -/
def lookupStr {α : Type} : List (String × α) → String → Option α
  | [], _ => none
  | (k, v) :: rest, q => if k = q then some v else lookupStr rest q

/-- Property access on a `Json` object; `none` on non-objects and missing keys. -/
def jGet : Json → String → Option Json
  | Json.obj kvs, k => lookupStr kvs k
  | _, _ => none

/-! ## String helpers

The JavaScript code uses `String.prototype` methods and two lodash helpers
(`trim` with a char argument, `isEmpty`).  We model them on `List Char`. -/

/-- lodash `trim(s, c)`: strip the character `c` from both ends. -/
def trimCharStr (c : Char) (s : String) : String :=
  String.mk (((s.toList.dropWhile (· == c)).reverse.dropWhile (· == c)).reverse)

/-- JavaScript `String.prototype.trim()`: strip whitespace from both ends. -/
def trimWs (s : String) : String :=
  String.mk (((s.toList.dropWhile Char.isWhitespace).reverse.dropWhile
    Char.isWhitespace).reverse)

/-- JavaScript `split(sep)` with a one-character separator, on char lists:
`"a  b".split(' ')` is `["a", "", "b"]` and `"".split(' ')` is `[""]`. -/
def splitOnCharList (c : Char) : List Char → List (List Char)
  | [] => [[]]
  | x :: xs =>
    let r := splitOnCharList c xs
    if x == c then [] :: r
    else
      match r with
      | y :: ys => (x :: y) :: ys
      | [] => [[x]]

/-- JavaScript `s.split(c)` for a one-character separator `c`. -/
def splitOnChar (c : Char) (s : String) : List String :=
  (splitOnCharList c s.toList).map String.mk

/-- JavaScript `s.startsWith(c)` for a one-character argument. -/
def strStartsWithChar (s : String) (c : Char) : Bool :=
  s.toList.head? == some c

/-- JavaScript `s.endsWith(c)` for a one-character argument. -/
def strEndsWithChar (s : String) (c : Char) : Bool :=
  s.toList.getLast? == some c

/-- JavaScript `s.includes(c)` for a one-character argument. -/
def strContainsChar (s : String) (c : Char) : Bool :=
  s.toList.any (· == c)

/-- JavaScript `s.slice(1)`: drop the first character. -/
def strDrop1 (s : String) : String :=
  String.mk (s.toList.drop 1)

/-- Remove the first occurrence of `c`, i.e. JavaScript
`s.replace(c, '')` with a plain (non-regex) one-character pattern. -/
def removeFirstCharAux (c : Char) : List Char → List Char
  | [] => []
  | x :: xs => if x == c then xs else x :: removeFirstCharAux c xs

/-- JavaScript `s.replace(c, '')` for a one-character pattern: removes only
the first occurrence. -/
def removeFirstChar (c : Char) (s : String) : String :=
  String.mk (removeFirstCharAux c s.toList)

/-- JavaScript `s.startsWith(p)` for an arbitrary string `p`. -/
def strStartsWith (s p : String) : Bool :=
  p.toList.isPrefixOf s.toList

/-! ## Tokenizer (lines 100-195 of the serializer)

The serializer keeps five accumulator lists, `qs_tailored_*`; we collect
them in a structure. -/

/-- The five tokenizer buckets (`qs_tailored_should_notexact`,
`qs_tailored_should_exact`, `qs_tailored_must_notexact`,
`qs_tailored_must_exact`, `qs_tailored_mustNot_exact`). -/
structure Buckets where
  should_notexact : List String
  should_exact : List String
  must_notexact : List String
  must_exact : List String
  mustNot_exact : List String
deriving DecidableEq

/-- All five buckets empty: the initial tokenizer state. -/
def emptyBuckets : Buckets := ⟨[], [], [], [], []⟩

/-- `_remove_orphan_leading_or_trailing_quotmarks` (source lines 106-122):
strip `+` and `-` from both ends, and if the result is quote-delimited on
exactly one end, remove the first `"` from the original word; otherwise
return the word unchanged. -/
def remove_orphan_leading_or_trailing_quotmarks (word : String) : String :=
  let w := trimCharStr '-' (trimCharStr '+' word)
  if !(strStartsWithChar w '"' && strEndsWithChar w '"') &&
     !(!strStartsWithChar w '"' && !strEndsWithChar w '"') then
    removeFirstChar '"' word
  else word

/-- `_removeQuotationMarks` (source lines 124-128).  The JavaScript body is
`word.replace('"', ''); word.replace("'", ''); return word;` — both
`replace` results are discarded (strings are immutable), so the function
returns its argument unchanged. -/
def removeQuotationMarks (word : String) : String := word

/-- One step of `_make_fuzzy_and_enrich_with_word_parts` (source lines
134-182), with `force_fuzzy = true` as in the source: classify one word
and append to the matching bucket. -/
def classifyWord (b : Buckets) (word : String) : Buckets :=
  if strStartsWithChar word '-' then
    { b with mustNot_exact :=
        b.mustNot_exact ++ [removeQuotationMarks (strDrop1 word)] }
  else if strStartsWithChar word '+' then
    if strContainsChar word '"' || strContainsChar word '*' ||
       strContainsChar word '?' then
      { b with must_exact := b.must_exact ++ [strDrop1 word] }
    else
      { b with must_notexact := b.must_notexact ++ [strDrop1 word] }
  else if strContainsChar word '*' || strContainsChar word '?' then
    { b with should_exact := b.should_exact ++ [removeQuotationMarks word] }
  else if strContainsChar word '"' then
    { b with should_exact := b.should_exact ++ [word] }
  else
    let wordpartlist := splitOnChar '-' word
    let word_new :=
      if wordpartlist.length > 1 then
        String.intercalate " "
          ((wordpartlist ++ [word]).map (fun el => el ++ " " ++ el ++ "~"))
      else word ++ " " ++ word ++ "~"
    { b with should_notexact := b.should_notexact ++ [word_new] }

/-- Word extraction (source lines 187-190): trim the query string, split on
spaces, drop empty fragments and lone `"` fragments. -/
def queryWords (qs : String) : List String :=
  (splitOnChar ' ' (trimWs qs)).filter (fun w => w != "" && w != "\"")

/-- The whole tokenizer (source lines 184-195): each word is first passed
through the orphan-quote cleanup, then classified. -/
def tokenizeQuery (qs : String) : Buckets :=
  (queryWords qs).foldl
    (fun b w => classifyWord b (remove_orphan_leading_or_trailing_quotmarks w))
    emptyBuckets

/-! ## Filter chains and `getFilters` (source lines 61-82)

A filter is an array `[aggName, value]` or `[aggName, value, childFilter]`;
`getFilters` flattens a list of such chains into an object mapping each
aggregation name to the ordered list of its selected values. -/

/-- A filter chain: `[name, value]` or `[name, value, child]`. -/
inductive FilterChain where
  | leaf : String → String → FilterChain
  | node : String → String → FilterChain → FilterChain
deriving DecidableEq

/-- Record one `(name, value)` pair in the accumulator object: append to the
existing value list when the key is present (JavaScript
`aggValueObj[aggName].push(fieldValue)`), otherwise add a new key at the
end (`aggValueObj[aggName] = [fieldValue]`, insertion order). -/
def upsertValue (assoc : List (String × List String)) (name value : String) :
    List (String × List String) :=
  match assoc with
  | [] => [(name, [value])]
  | (k, vs) :: rest =>
    if k = name then (k, vs ++ [value]) :: rest
    else (k, vs) :: upsertValue rest name value

/-- `getChildFilter` (source lines 64-76): record the chain's head pair and
recurse into the child chain when present. -/
def getChildFilter (assoc : List (String × List String)) :
    FilterChain → List (String × List String)
  | .leaf n v => upsertValue assoc n v
  | .node n v child => getChildFilter (upsertValue assoc n v) child

/-- `getFilters` (source lines 61-82): fold `getChildFilter` over the
chains, starting from the empty accumulator object. -/
def getFilters (filters : List FilterChain) : List (String × List String) :=
  filters.foldl getChildFilter []

/-! ## Serializer configuration

The constructor stores `config.reviewstatemapping` and
`config.simpleFields`.  The request body only reads
`reviewstatemapping['Manual']`, so we store that list directly.

`listFilterFields` and `nestedFilterFields` are imported from
`./constants.js`, which is not part of the sources under verification.
Modelled from the spec: the missing `constants.js` supplies the facet
classification (`isListFilter` / `isNested` in the spec's FacetConfig), an
externally supplied configuration table; we therefore carry the two string
lists as configuration fields. -/
structure SerializerConfig where
  /-- `this.reviewstatemapping['Manual']`. -/
  reviewstatemappingManual : List String
  /-- `this.simpleFields`: the weighted field list for fuzzy clauses. -/
  simpleFields : List String
  /-- Modelled from the spec: `listFilterFields` from the absent
  `constants.js` — the flat (list) facet field names. -/
  listFilterFields : List String
  /-- Modelled from the spec: `nestedFilterFields` from the absent
  `constants.js` — the nested facet field names. -/
  nestedFilterFields : List String

/-- The hardcoded `aggFieldsMapping` (source lines 333-339), in source
order: aggregation name to Elasticsearch field name. -/
def aggFieldsMapping : List (String × String) :=
  [("kompasscomponent_agg.inner.kompasscomponent_token", "kompasscomponent"),
   ("targetaudience_agg.inner.targetaudience_token", "targetaudience"),
   ("organisationunit_agg.inner.organisationunit_token", "organisationunit"),
   ("informationtype_agg.inner.informationtype_token", "informationtype")]

/-! ## Query construction (source lines 197-298) -/

/-- Rewrite a weighted field `"name^boost"` to `"name.exact^boost"` (source
lines 198-202).  The JavaScript takes `fieldname = fld.split('^')[0]` and
replaces its first occurrence, which is at position 0 since `fieldname` is
a prefix of `fld`. -/
def exactField (fld : String) : String :=
  let fieldname := (splitOnChar '^' fld).headD ""
  fieldname ++ ".exact" ++ String.mk (fld.toList.drop fieldname.toList.length)

/-- One `query_string` clause: `{query_string: {query: ..., fields: ...}}`. -/
def queryStringClause (q : String) (fields : List String) : Json :=
  Json.obj [("query_string", Json.obj
    [("query", Json.str q), ("fields", Json.arr (fields.map Json.str))])]

/-- `shouldList` (source lines 209-222): one clause per non-empty `should`
bucket; the exact bucket targets the `.exact` field variants. -/
def shouldListOf (cfg : SerializerConfig) (b : Buckets) : List Json :=
  (if b.should_notexact.isEmpty then [] else
    [queryStringClause (String.intercalate " " b.should_notexact)
      cfg.simpleFields]) ++
  (if b.should_exact.isEmpty then [] else
    [queryStringClause (String.intercalate " " b.should_exact)
      (cfg.simpleFields.map exactField)])

/-- `mustList` (source lines 224-237). -/
def mustListOf (cfg : SerializerConfig) (b : Buckets) : List Json :=
  (if b.must_notexact.isEmpty then [] else
    [queryStringClause (String.intercalate " " b.must_notexact)
      cfg.simpleFields]) ++
  (if b.must_exact.isEmpty then [] else
    [queryStringClause (String.intercalate " " b.must_exact)
      (cfg.simpleFields.map exactField)])

/-- `must_notList` (source lines 238-244). -/
def mustNotListOf (cfg : SerializerConfig) (b : Buckets) : List Json :=
  if b.mustNot_exact.isEmpty then [] else
    [queryStringClause (String.intercalate " " b.mustNot_exact)
      (cfg.simpleFields.map exactField)]

/-- `bodyParams['query']` (source lines 246-252): the `bool` object always
carries all three clause keys, with possibly empty arrays. -/
def boolQueryJson (cfg : SerializerConfig) (b : Buckets) : Json :=
  Json.obj [("bool", Json.obj
    [("should", Json.arr (shouldListOf cfg b)),
     ("must", Json.arr (mustListOf cfg b)),
     ("must_not", Json.arr (mustNotListOf cfg b))])]

/-- One highlight field entry `{name: {matched_fields: [name, name.exact],
type: 'fvh'}}`. -/
def highlightField (name : String) : Json :=
  Json.obj [(name, Json.obj
    [("matched_fields", Json.arr [Json.str name, Json.str (name ++ ".exact")]),
     ("type", Json.str "fvh")])]

/-- `bodyParams['highlight']` (source lines 255-298). -/
def highlightJson : Json :=
  Json.obj [("fields", Json.arr
    [highlightField "title", highlightField "description",
     highlightField "freemanualtags_searchable",
     highlightField "blocks_plaintext", highlightField "subjects",
     highlightField "manualfilecontent"])]

/-- The `query`/`highlight` segment of the body: present exactly when the
query string is non-empty — lodash `isEmpty` on a string tests
`length === 0`, so a whitespace-only string counts as non-empty (source
line 184). -/
def queryPart (cfg : SerializerConfig) (qs : String) : List (String × Json) :=
  if qs = "" then []
  else [("query", boolQueryJson cfg (tokenizeQuery qs)),
        ("highlight", highlightJson)]

/-- The `sort` segment (source lines 301-306). -/
def sortPart (sortBy sortOrder : String) : List (String × Json) :=
  if sortBy = "bestmatch" then []
  else [("sort", Json.arr [Json.obj
    [(sortBy, Json.str (if sortOrder = "desc" then "desc" else "asc"))]])]

/-- The `size` segment (source lines 308-310): present only when
`size > 0`. -/
def sizePart (size : Int) : List (String × Json) :=
  if size > 0 then [("size", Json.num size)] else []

/-- The `from` segment (source lines 312-316): present only when
`page > 0`, with `from = (page - 1) * s` where `s = size` when positive
and `0` otherwise. -/
def fromPart (page size : Int) : List (String × Json) :=
  if page > 0 then
    [("from", Json.num ((page - 1) * (if size > 0 then size else 0)))]
  else []

/-! ## Post filter (source lines 341-406) -/

/-- A `terms` clause `{terms: {fieldName: values}}`. -/
def termsClause (fieldName : String) (values : List String) : Json :=
  Json.obj [("terms", Json.obj [(fieldName, Json.arr (values.map Json.str))])]

/-- The two global terms clauses (source lines 341-352):
`allowed_content_types = ['Manual']` is hardcoded, and
`allowed_review_states = this.reviewstatemapping['Manual']`. -/
def globalTerms (cfg : SerializerConfig) : List Json :=
  [termsClause "portal_type" ["Manual"],
   termsClause "review_state" cfg.reviewstatemappingManual]

/-- `additionalterms` (source lines 359-370): one `terms` clause per
flattened facet whose mapped field name is a list filter field.  Facet
names absent from `aggFieldsMapping` map to `undefined`, which is never a
list filter field, so they are skipped.  The JavaScript reduce appends to
an accumulator in key order, which is exactly `filterMap`. -/
def additionalterms (listFields : List String)
    (assoc : List (String × List String)) : List Json :=
  assoc.filterMap (fun p =>
    match lookupStr aggFieldsMapping p.1 with
    | some f => if f ∈ listFields then some (termsClause f p.2) else none
    | none => none)

/-- The data of one nested post-filter clause: the nested path and the
selected values.  The JavaScript builds the clause object directly; the
only fields the rest of the serializer reads back are `nested.path` (in
`aggregation_filter`) and the value list, so we keep them structured and
render with `nestedClauseJson`. -/
structure NestedClause where
  path : String
  values : List String
deriving DecidableEq

/-- Render of a nested post-filter clause (source lines 378-391):
`{nested: {path: p, query: {bool: {must: [{terms: {p.token: values}}]}}}}`. -/
def nestedClauseJson (c : NestedClause) : Json :=
  Json.obj [("nested", Json.obj
    [("path", Json.str c.path),
     ("query", Json.obj [("bool", Json.obj [("must", Json.arr
       [Json.obj [("terms", Json.obj
         [(c.path ++ ".token", Json.arr (c.values.map Json.str))])]])])])])]

/-- `filter` (source lines 373-394): one nested clause per flattened facet
whose mapped field name is a nested filter field; unknown facet names are
skipped as in `additionalterms`. -/
def nestedFilters (nestedFields : List String)
    (assoc : List (String × List String)) : List NestedClause :=
  assoc.filterMap (fun p =>
    match lookupStr aggFieldsMapping p.1 with
    | some f => if f ∈ nestedFields then some ⟨f, p.2⟩ else none
    | none => none)

/-- The `terms` list and nested `filter` list of the post filter (source
lines 354-395): both reduces run only when the filter array is non-empty
(`if (filters.length)`). -/
def filterParts (cfg : SerializerConfig) (filters : List FilterChain) :
    List Json × List NestedClause :=
  if filters.isEmpty then (globalTerms cfg, [])
  else
    (globalTerms cfg ++ additionalterms cfg.listFilterFields (getFilters filters),
     nestedFilters cfg.nestedFilterFields (getFilters filters))

/-- `post_filter` (source lines 401-406): `{bool: {must: terms}}`, with a
`filter` key appended only when the nested clause list is non-empty. -/
def postFilterJson (terms : List Json) (filter : List NestedClause) : Json :=
  Json.obj [("bool", Json.obj
    (("must", Json.arr terms) ::
      (if filter.isEmpty then []
       else [("filter", Json.arr (filter.map nestedClauseJson))])))]

/-! ## Aggregations (source lines 412-499) -/

/-- lodash `isEmpty` on the values `aggregation_filter` can return: an
object is empty when it has no keys. -/
def jsonIsEmptyObj : Json → Bool
  | Json.obj [] => true
  | Json.arr [] => true
  | _ => false

/-- lodash `extend(dst, {k: v})`: overwrite the value at `k` in place when
the key exists, otherwise append the pair. -/
def extendObj (dst : List (String × Json)) (kv : String × Json) :
    List (String × Json) :=
  if (dst.map Prod.fst).contains kv.1 then
    dst.map (fun p => if p.1 = kv.1 then (p.1, kv.2) else p)
  else dst ++ [kv]

/-- `aggregation_filter` (source lines 448-461): `{match_all: {}}` when no
nested post-filter clause exists, otherwise the nested clauses minus those
whose path is a prefix of the aggregation's first name component
(`!agg[0].startsWith(el.nested.path)`). -/
def aggregation_filter (filter : List NestedClause) (agg0 : String) : Json :=
  if filter.isEmpty then Json.obj [("match_all", Json.obj [])]
  else Json.obj [("bool", Json.obj [("filter", Json.arr
    ((filter.filter (fun el => !(strStartsWith agg0 el.path))).map
      nestedClauseJson))])]

/-- The inner `aggs` value of a nested facet aggregation (source lines
463-492): a `nested` aggregation on the field path around a `terms`
aggregation on `field.token` (ascending keys, 30 buckets) with a
`top_hits` sub-aggregation recovering the display label. -/
def nestedAggInner (fieldName agg2 : String) : Json :=
  Json.obj [("inner", Json.obj
    [("nested", Json.obj [("path", Json.str fieldName)]),
     ("aggs", Json.obj [(agg2, Json.obj
       [("terms", Json.obj
         [("field", Json.str (fieldName ++ ".token")),
          ("order", Json.obj [("_key", Json.str "asc")]),
          ("size", Json.num 30)]),
        ("aggs", Json.obj [("somemoredatafromelasticsearch", Json.obj
          [("top_hits", Json.obj
            [("size", Json.num 1),
             ("_source", Json.obj
               [("includes", Json.arr [Json.str fieldName])])])])])])])])]

/-- One nested-facet aggregation entry (source lines 463-497), keyed by the
first dot-component of the aggregation name (`myaggs[0]`); the
`aggregation_filter` result is attached as `filter` when non-empty (it
always is: it carries either `match_all` or `bool`). -/
def nestedAggEntry (filter : List NestedClause) (aggName fieldName : String) :
    String × Json :=
  let myaggs := splitOnChar '.' aggName
  let agg0 := myaggs.headD ""
  let agg2 := myaggs.getD 2 ""
  let flt := aggregation_filter filter agg0
  (agg0, Json.obj ([("aggs", nestedAggInner fieldName agg2)] ++
    (if jsonIsEmptyObj flt then [] else [("filter", flt)])))

/-- One step of the list-facet aggregation loop (source lines 416-424):
extend the accumulator with `{aggName: {terms: {field: fieldName}}}` when
the field is a list filter field. -/
def listAggStep (listFields : List String) (dst : List (String × Json))
    (p : String × String) : List (String × Json) :=
  if p.2 ∈ listFields then
    extendObj dst (p.1, Json.obj [("terms", Json.obj
      [("field", Json.str p.2)])])
  else dst

/-- One step of the nested-facet aggregation loop (source lines 427-499). -/
def nestedAggStep (nestedFields : List String) (filter : List NestedClause)
    (dst : List (String × Json)) (p : String × String) :
    List (String × Json) :=
  if p.2 ∈ nestedFields then extendObj dst (nestedAggEntry filter p.1 p.2)
  else dst

/-- `bodyParams['aggs']` (source lines 413-499): the list-facet loop then
the nested-facet loop, both over `Object.keys(aggFieldsMapping)`. -/
def buildAggs (cfg : SerializerConfig) (filter : List NestedClause) :
    List (String × Json) :=
  aggFieldsMapping.foldl (nestedAggStep cfg.nestedFilterFields filter)
    (aggFieldsMapping.foldl (listAggStep cfg.listFilterFields) [])

/-! ## The serializer (source lines 88-502) -/

/-- The app state `query` passed to `serialize` (the fields it reads). -/
structure SearchState where
  queryString : String
  sortBy : String
  sortOrder : String
  page : Int
  size : Int
  filters : List FilterChain

/-- `serialize` (source lines 88-502): assemble `bodyParams` in the order
the JavaScript inserts its keys: `query`, `highlight`, `sort`, `size`,
`from`, `post_filter`, `aggs`. -/
def serialize (cfg : SerializerConfig) (st : SearchState) : Json :=
  let tf := filterParts cfg st.filters
  Json.obj (queryPart cfg st.queryString
    ++ sortPart st.sortBy st.sortOrder
    ++ sizePart st.size
    ++ fromPart st.page st.size
    ++ [("post_filter", postFilterJson tf.1 tf.2),
        ("aggs", Json.obj (buildAggs cfg tf.2))])

/-- The `(facetName, value)` pairs of one chain, head first. -/
def chainPairs : FilterChain → List (String × String)
  | .leaf n v => [(n, v)]
  | .node n v child => (n, v) :: chainPairs child

/-- All pairs recorded by a list of chains, in visiting order. -/
def allPairs (fs : List FilterChain) : List (String × String) :=
  (fs.map chainPairs).flatten

/-- The values recorded under facet name `n`, in order, duplicates kept. -/
def valuesOf (n : String) (ps : List (String × String)) : List String :=
  ps.filterMap (fun p => if p.1 = n then some p.2 else none)

/-- Selector: the list inside an aggregation entry's wrapping filter,
`body.aggs[k].filter.bool.filter`. -/
def aggWrapFilter (body : Json) (k : String) : Option Json :=
  ((((jGet body "aggs").bind (fun a => jGet a k)).bind
    (fun e => jGet e "filter")).bind (fun fl => jGet fl "bool")).bind
    (fun bb => jGet bb "filter")

/-! ## Fixtures

A concrete configuration and search states, used by the witness and
counterexample theorems.  The field lists mirror the deployment described
by the spec: four nested facets and one flat facet. -/

/-- A concrete serializer configuration. -/
def cfgW : SerializerConfig :=
  { reviewstatemappingManual := ["published"],
    simpleFields := ["title^1.4", "description"],
    listFilterFields := ["freemanualtags"],
    nestedFilterFields :=
      ["kompasscomponent", "targetaudience", "organisationunit",
       "informationtype"] }

/-- A search state with an empty query string and no filters. -/
def stEmpty : SearchState :=
  { queryString := "", sortBy := "bestmatch", sortOrder := "asc",
    page := 1, size := 10, filters := [] }

/-- A search state whose query string is a single space. -/
def stSpace : SearchState := { stEmpty with queryString := " " }

/-- A search state with the query string `foo`. -/
def stFoo : SearchState := { stEmpty with queryString := "foo" }

/-- A search state with one selected value on the `kompasscomponent`
nested facet. -/
def stKomp : SearchState :=
  { stEmpty with filters :=
      [.leaf "kompasscomponent_agg.inner.kompasscomponent_token" "BEW"] }

/-! ## Sanity checks of the tokenizer and the flattener -/

example : tokenizeQuery "+foo -bar \"baz\"" =
    { should_notexact := [], should_exact := ["\"baz\""],
      must_notexact := ["foo"], must_exact := [],
      mustNot_exact := ["bar"] } := by decide

example : tokenizeQuery "sun-shine" =
    { emptyBuckets with
      should_notexact := ["sun sun~ shine shine~ sun-shine sun-shine~"] } := by
  decide

example :
    getFilters [.leaf "type" "A", .node "type" "B" (.leaf "sub" "X")] =
      [("type", ["A", "B"]), ("sub", ["X"])] := by decide

/-! ## Association-list lookup lemmas -/

theorem lookupStr_append_left_none {α : Type} {l1 : List (String × α)}
    (l2 : List (String × α)) {k : String} (h : lookupStr l1 k = none) :
    lookupStr (l1 ++ l2) k = lookupStr l2 k := by
  induction l1 with
  | nil => rfl
  | cons p rest ih =>
    obtain ⟨k1, v1⟩ := p
    rw [List.cons_append]
    simp only [lookupStr] at h ⊢
    by_cases hk : k1 = k
    · simp [hk] at h
    · rw [if_neg hk] at h ⊢
      exact ih h

theorem lookupStr_queryPart {cfg : SerializerConfig} {qs key : String}
    (h1 : key ≠ "query") (h2 : key ≠ "highlight") :
    lookupStr (queryPart cfg qs) key = none := by
  unfold queryPart
  split
  · rfl
  · simp only [lookupStr, if_neg (Ne.symm h1), if_neg (Ne.symm h2)]

theorem lookupStr_sortPart {sortBy sortOrder key : String}
    (h : key ≠ "sort") :
    lookupStr (sortPart sortBy sortOrder) key = none := by
  unfold sortPart
  split
  · rfl
  · simp only [lookupStr, if_neg (Ne.symm h)]

theorem lookupStr_sizePart {size : Int} {key : String} (h : key ≠ "size") :
    lookupStr (sizePart size) key = none := by
  unfold sizePart
  split
  · simp only [lookupStr, if_neg (Ne.symm h)]
  · rfl

theorem lookupStr_fromPart {page size : Int} {key : String}
    (h : key ≠ "from") :
    lookupStr (fromPart page size) key = none := by
  unfold fromPart
  split
  · simp only [lookupStr, if_neg (Ne.symm h)]
  · rfl

/-! ## Where each top-level key of the body comes from -/

theorem jGet_serialize_eq (cfg : SerializerConfig) (st : SearchState)
    (key : String) :
    jGet (serialize cfg st) key =
      lookupStr (queryPart cfg st.queryString ++
        (sortPart st.sortBy st.sortOrder ++ (sizePart st.size ++
        (fromPart st.page st.size ++
         [("post_filter", postFilterJson (filterParts cfg st.filters).1
             (filterParts cfg st.filters).2),
          ("aggs", Json.obj
             (buildAggs cfg (filterParts cfg st.filters).2))])))) key := by
  simp only [serialize, jGet, List.append_assoc]

theorem jGet_serialize_query (cfg : SerializerConfig) (st : SearchState) :
    jGet (serialize cfg st) "query" =
      (if st.queryString = "" then none
       else some (boolQueryJson cfg (tokenizeQuery st.queryString))) := by
  rw [jGet_serialize_eq]
  unfold queryPart
  split
  · rw [List.nil_append,
      lookupStr_append_left_none _ (lookupStr_sortPart (by decide)),
      lookupStr_append_left_none _ (lookupStr_sizePart (by decide)),
      lookupStr_append_left_none _ (lookupStr_fromPart (by decide))]
    rfl
  · rfl

theorem jGet_serialize_highlight (cfg : SerializerConfig)
    (st : SearchState) :
    jGet (serialize cfg st) "highlight" =
      (if st.queryString = "" then none else some highlightJson) := by
  rw [jGet_serialize_eq]
  unfold queryPart
  split
  · rw [List.nil_append,
      lookupStr_append_left_none _ (lookupStr_sortPart (by decide)),
      lookupStr_append_left_none _ (lookupStr_sizePart (by decide)),
      lookupStr_append_left_none _ (lookupStr_fromPart (by decide))]
    rfl
  · rfl

theorem jGet_serialize_size (cfg : SerializerConfig) (st : SearchState) :
    jGet (serialize cfg st) "size" =
      (if st.size > 0 then some (Json.num st.size) else none) := by
  rw [jGet_serialize_eq,
    lookupStr_append_left_none _ (lookupStr_queryPart (by decide) (by decide)),
    lookupStr_append_left_none _ (lookupStr_sortPart (by decide))]
  unfold sizePart
  split
  · rfl
  · rw [List.nil_append,
      lookupStr_append_left_none _ (lookupStr_fromPart (by decide))]
    rfl

theorem jGet_serialize_from (cfg : SerializerConfig) (st : SearchState) :
    jGet (serialize cfg st) "from" =
      (if st.page > 0 then
        some (Json.num ((st.page - 1) * (if st.size > 0 then st.size else 0)))
       else none) := by
  rw [jGet_serialize_eq,
    lookupStr_append_left_none _ (lookupStr_queryPart (by decide) (by decide)),
    lookupStr_append_left_none _ (lookupStr_sortPart (by decide)),
    lookupStr_append_left_none _ (lookupStr_sizePart (by decide))]
  unfold fromPart
  split
  · rfl
  · rfl

theorem jGet_serialize_post_filter (cfg : SerializerConfig)
    (st : SearchState) :
    jGet (serialize cfg st) "post_filter" =
      some (postFilterJson (filterParts cfg st.filters).1
        (filterParts cfg st.filters).2) := by
  rw [jGet_serialize_eq,
    lookupStr_append_left_none _ (lookupStr_queryPart (by decide) (by decide)),
    lookupStr_append_left_none _ (lookupStr_sortPart (by decide)),
    lookupStr_append_left_none _ (lookupStr_sizePart (by decide)),
    lookupStr_append_left_none _ (lookupStr_fromPart (by decide))]
  rfl

theorem jGet_serialize_aggs (cfg : SerializerConfig) (st : SearchState) :
    jGet (serialize cfg st) "aggs" =
      some (Json.obj (buildAggs cfg (filterParts cfg st.filters).2)) := by
  rw [jGet_serialize_eq,
    lookupStr_append_left_none _ (lookupStr_queryPart (by decide) (by decide)),
    lookupStr_append_left_none _ (lookupStr_sortPart (by decide)),
    lookupStr_append_left_none _ (lookupStr_sizePart (by decide)),
    lookupStr_append_left_none _ (lookupStr_fromPart (by decide))]
  rfl

/-! ## Claim C7: the `"+foo -bar \"baz\""` tokenizer example -/

/-- Claim C7: tokenizing the query string `+foo -bar "baz"` puts `foo`
into `qs_tailored_must_notexact`, `bar` into `qs_tailored_mustNot_exact`,
the verbatim `"baz"` into `qs_tailored_should_exact`, and leaves the other
buckets empty. -/
theorem C7_tokenize_example :
    tokenizeQuery "+foo -bar \"baz\"" =
      { should_notexact := [], should_exact := ["\"baz\""],
        must_notexact := ["foo"], must_exact := [],
        mustNot_exact := ["bar"] } := by decide

/-! ## Claim C4: quotation marks are not actually removed

The claim says a `-`-prefixed word is appended to the `mustNot` bucket with
the sign stripped and its quotation marks removed.  The sign is stripped,
but `_removeQuotationMarks` (source lines 124-128) discards both
`String.replace` results and returns its argument unchanged, so the quotes
survive: the function's own name documents the intent the body misses. -/

/-- Claim C4: on the query word `-"bar"` the code appends `"bar"` with the
quotation marks still present to the `mustNot` bucket, instead of the
claimed quote-free `bar`. -/
theorem C4_minus_word_keeps_quotes :
    tokenizeQuery "-\"bar\"" =
      { emptyBuckets with mustNot_exact := ["\"bar\""] } ∧
    removeQuotationMarks "\"bar\"" ≠ "bar" := ⟨by decide, by decide⟩

/-! ## Claim C8: `size` and `from` -/

/-- Claim C8: the `size` key is present exactly when `size > 0`, holding
`size`; the `from` key is present exactly when `page > 0`, holding
`(page - 1) * s` with `s = size` when `size > 0` and `s = 0` otherwise. -/
theorem C8_size_from (cfg : SerializerConfig) (st : SearchState) :
    jGet (serialize cfg st) "size" =
      (if st.size > 0 then some (Json.num st.size) else none) ∧
    jGet (serialize cfg st) "from" =
      (if st.page > 0 then
        some (Json.num ((st.page - 1) * (if st.size > 0 then st.size else 0)))
       else none) :=
  ⟨jGet_serialize_size cfg st, jGet_serialize_from cfg st⟩

/-! ## Claim C3: empty versus whitespace-only query strings

The claim says a whitespace-only query string omits `query` and
`highlight`.  The code guards on lodash `isEmpty(queryString)`, which for
strings tests `length === 0`, so the single-space string `" "` enters the
query-building branch and the two keys are emitted (the word list is empty,
so all clause arrays are empty). -/

/-- Claim C3, counterexample: on a whitespace-only query string (a single
space) the body does contain both a `query` and a `highlight` key. -/
theorem C3_counterexample :
    (jGet (serialize cfgW stSpace) "query").isSome = true ∧
    (jGet (serialize cfgW stSpace) "highlight").isSome = true := by
  rw [jGet_serialize_query, jGet_serialize_highlight]
  exact ⟨rfl, rfl⟩

/-- Claim C3, amended: when the query string is the empty string, the body
contains neither a `query` nor a `highlight` key. -/
theorem C3_empty_query_omits (cfg : SerializerConfig) (st : SearchState)
    (h : st.queryString = "") :
    jGet (serialize cfg st) "query" = none ∧
    jGet (serialize cfg st) "highlight" = none := by
  rw [jGet_serialize_query, jGet_serialize_highlight, if_pos h, if_pos h]
  exact ⟨rfl, rfl⟩

/-- Witness for the amended claim C3 at a concrete state. -/
theorem C3_witness :
    jGet (serialize cfgW stEmpty) "query" = none ∧
    jGet (serialize cfgW stEmpty) "highlight" = none :=
  C3_empty_query_omits cfgW stEmpty rfl

/-! ## Claim C2: the three clause keys of the `bool` query

The claim says an empty bucket yields no corresponding key at all.  The
code (source lines 246-252) always stores all three keys, with possibly
empty arrays; only the clause lists' *contents* are guarded by the
emptiness checks of lines 209-244. -/

/-- Claim C2, counterexample: for the query string `foo` both `must`
buckets are empty, yet the emitted `bool` object carries a `must` key whose
value is the empty array. -/
theorem C2_counterexample :
    (tokenizeQuery "foo").must_notexact = [] ∧
    (tokenizeQuery "foo").must_exact = [] ∧
    ((jGet (serialize cfgW stFoo) "query").bind (fun q => jGet q "bool")).bind
      (fun b => jGet b "must") = some (Json.arr []) := by
  refine ⟨by decide, by decide, ?_⟩
  rw [jGet_serialize_query]
  rfl

/-- Claim C2, amended: for a non-empty query string the `bool` query object
always carries all three keys `should`, `must`, `must_not`; each key's
array is built from the corresponding buckets (one clause per non-empty
bucket) and is empty exactly when those buckets are empty — an empty bucket
yields an empty-array key, not an absent key. -/
theorem C2_bool_clause_lists (cfg : SerializerConfig) (st : SearchState)
    (h : st.queryString ≠ "") :
    jGet (serialize cfg st) "query" =
      some (Json.obj [("bool", Json.obj
        [("should", Json.arr (shouldListOf cfg (tokenizeQuery st.queryString))),
         ("must", Json.arr (mustListOf cfg (tokenizeQuery st.queryString))),
         ("must_not", Json.arr
           (mustNotListOf cfg (tokenizeQuery st.queryString)))])]) ∧
    (shouldListOf cfg (tokenizeQuery st.queryString) = [] ↔
      (tokenizeQuery st.queryString).should_notexact = [] ∧
      (tokenizeQuery st.queryString).should_exact = []) ∧
    (mustListOf cfg (tokenizeQuery st.queryString) = [] ↔
      (tokenizeQuery st.queryString).must_notexact = [] ∧
      (tokenizeQuery st.queryString).must_exact = []) ∧
    (mustNotListOf cfg (tokenizeQuery st.queryString) = [] ↔
      (tokenizeQuery st.queryString).mustNot_exact = []) := by
  refine ⟨?_, ?_, ?_, ?_⟩
  · rw [jGet_serialize_query, if_neg h]
    rfl
  · unfold shouldListOf
    by_cases h1 : (tokenizeQuery st.queryString).should_notexact = [] <;>
      by_cases h2 : (tokenizeQuery st.queryString).should_exact = [] <;>
      simp [List.isEmpty_iff, h1, h2]
  · unfold mustListOf
    by_cases h1 : (tokenizeQuery st.queryString).must_notexact = [] <;>
      by_cases h2 : (tokenizeQuery st.queryString).must_exact = [] <;>
      simp [List.isEmpty_iff, h1, h2]
  · unfold mustNotListOf
    by_cases h1 : (tokenizeQuery st.queryString).mustNot_exact = [] <;>
      simp [List.isEmpty_iff, h1]

/-! ## Claim C6: `getFilters` flattens chains name-wise, in order

`chainPairs` lists the `(name, value)` pairs a chain records, in traversal
order; `valuesOf n ps` extracts the values recorded under `n`.  The claim
says `getFilters` maps each facet name to exactly that value list. -/

theorem lookupStr_upsertValue (a : List (String × List String))
    (k v n : String) :
    lookupStr (upsertValue a k v) n =
      if n = k then some ((lookupStr a n).getD [] ++ [v])
      else lookupStr a n := by
  induction a with
  | nil =>
    by_cases h : n = k
    · simp [upsertValue, lookupStr, h]
    · simp [upsertValue, lookupStr, h, Ne.symm h]
  | cons p rest ih =>
    obtain ⟨k1, vs1⟩ := p
    by_cases h1 : k1 = k
    · subst h1
      by_cases h2 : n = k1
      · subst h2
        simp [upsertValue, lookupStr]
      · simp [upsertValue, lookupStr, h2, Ne.symm h2]
    · by_cases h2 : k1 = n
      · subst h2
        simp [upsertValue, lookupStr, h1, Ne.symm h1]
      · simp [upsertValue, lookupStr, h1, h2, ih]

theorem lookupStr_getChildFilter (c : FilterChain)
    (a : List (String × List String)) (n : String) :
    lookupStr (getChildFilter a c) n =
      if valuesOf n (chainPairs c) = [] then lookupStr a n
      else some ((lookupStr a n).getD [] ++ valuesOf n (chainPairs c)) := by
  induction c generalizing a with
  | leaf m w =>
    by_cases h : m = n
    · subst h
      simp [getChildFilter, chainPairs, valuesOf, lookupStr_upsertValue]
    · simp [getChildFilter, chainPairs, valuesOf, lookupStr_upsertValue, h,
        Ne.symm h]
  | node m w child ih =>
    have hp : valuesOf n (chainPairs (.node m w child)) =
        (if m = n then [w] else []) ++ valuesOf n (chainPairs child) := by
      simp only [chainPairs, valuesOf, List.filterMap_cons]
      by_cases h : m = n <;> simp [h]
    rw [show getChildFilter a (.node m w child) =
        getChildFilter (upsertValue a m w) child from rfl, ih, hp,
      lookupStr_upsertValue]
    by_cases h : m = n
    · subst h
      simp only [if_pos rfl, if_pos (rfl : m = m)]
      by_cases hv : valuesOf m (chainPairs child) = [] <;>
        simp [hv, List.append_assoc]
    · simp only [if_neg (fun hh => h (Eq.symm hh)), if_neg h, List.nil_append]

theorem lookupStr_getFilters_fold (fs : List FilterChain)
    (a : List (String × List String)) (n : String) :
    lookupStr (fs.foldl getChildFilter a) n =
      if valuesOf n (allPairs fs) = [] then lookupStr a n
      else some ((lookupStr a n).getD [] ++ valuesOf n (allPairs fs)) := by
  induction fs generalizing a with
  | nil => simp [allPairs, valuesOf]
  | cons c fs ih =>
    have hp : valuesOf n (allPairs (c :: fs)) =
        valuesOf n (chainPairs c) ++ valuesOf n (allPairs fs) := by
      simp [allPairs, valuesOf, List.filterMap_append]
    rw [List.foldl_cons, ih, hp, lookupStr_getChildFilter]
    by_cases h1 : valuesOf n (chainPairs c) = [] <;>
      by_cases h2 : valuesOf n (allPairs fs) = [] <;>
      simp [h1, h2, List.append_assoc]

/-- Claim C6: `getFilters` maps each facet name to the ordered list of the
values recorded for it across all chains and their recursively visited
children (duplicates and insertion order preserved; names never recorded
are absent), and on the spec's example it yields
`type = [A, B]`, `sub = [X]`. -/
theorem C6_getFilters_flatten (fs : List FilterChain) (n : String) :
    lookupStr (getFilters fs) n =
      (if valuesOf n (allPairs fs) = [] then none
       else some (valuesOf n (allPairs fs))) ∧
    getFilters [.leaf "type" "A", .node "type" "B" (.leaf "sub" "X")] =
      [("type", ["A", "B"]), ("sub", ["X"])] := by
  refine ⟨?_, by decide⟩
  rw [show getFilters fs = fs.foldl getChildFilter [] from rfl,
    lookupStr_getFilters_fold]
  by_cases h : valuesOf n (allPairs fs) = [] <;> simp [h, lookupStr]

/-- Witness for the amended claim C2 at a concrete state. -/
theorem C2_witness :
    jGet (serialize cfgW stFoo) "query" =
      some (Json.obj [("bool", Json.obj
        [("should", Json.arr (shouldListOf cfgW (tokenizeQuery "foo"))),
         ("must", Json.arr (mustListOf cfgW (tokenizeQuery "foo"))),
         ("must_not", Json.arr (mustNotListOf cfgW (tokenizeQuery "foo")))])]) :=
  (C2_bool_clause_lists cfgW stFoo (by decide)).1

/-! ## Claim C9: unknown facet names are silently dropped

`aggFieldsMapping[aggName]` is `undefined` for an unknown aggregation
name, and `undefined` is neither a list nor a nested filter field, so both
reduces skip the entry; adding a selection on an unknown facet therefore
leaves the whole request body unchanged. -/

theorem filterMap_upsertValue_none {β : Type}
    (F : String → List String → Option β) (n v : String)
    (hn : ∀ vs, F n vs = none) (a : List (String × List String)) :
    (upsertValue a n v).filterMap (fun p => F p.1 p.2) =
      a.filterMap (fun p => F p.1 p.2) := by
  induction a with
  | nil => simp [upsertValue, hn]
  | cons p rest ih =>
    obtain ⟨k1, vs1⟩ := p
    by_cases h : k1 = n
    · subst h
      simp [upsertValue, List.filterMap_cons, hn]
    · simp [upsertValue, h, List.filterMap_cons, ih]

theorem additionalterms_upsert_unknown (lf : List String)
    (a : List (String × List String)) (n v : String)
    (h : lookupStr aggFieldsMapping n = none) :
    additionalterms lf (upsertValue a n v) = additionalterms lf a := by
  unfold additionalterms
  exact filterMap_upsertValue_none
    (fun k vs => match lookupStr aggFieldsMapping k with
      | some f => if f ∈ lf then some (termsClause f vs) else none
      | none => none) n v (fun vs => by simp [h]) a

theorem nestedFilters_upsert_unknown (nf : List String)
    (a : List (String × List String)) (n v : String)
    (h : lookupStr aggFieldsMapping n = none) :
    nestedFilters nf (upsertValue a n v) = nestedFilters nf a := by
  unfold nestedFilters
  exact filterMap_upsertValue_none
    (fun k vs => match lookupStr aggFieldsMapping k with
      | some f => if f ∈ nf then some (⟨f, vs⟩ : NestedClause) else none
      | none => none) n v (fun vs => by simp [h]) a

theorem getFilters_append_leaf (fs : List FilterChain) (n v : String) :
    getFilters (fs ++ [.leaf n v]) = upsertValue (getFilters fs) n v := by
  unfold getFilters
  rw [List.foldl_append]
  rfl

theorem filterParts_append_unknown (cfg : SerializerConfig)
    (fs : List FilterChain) (n v : String)
    (h : lookupStr aggFieldsMapping n = none) :
    filterParts cfg (fs ++ [.leaf n v]) = filterParts cfg fs := by
  unfold filterParts
  rw [if_neg (by simp : ¬(fs ++ [FilterChain.leaf n v]).isEmpty = true),
    getFilters_append_leaf, additionalterms_upsert_unknown _ _ _ _ h,
    nestedFilters_upsert_unknown _ _ _ _ h]
  by_cases h0 : fs = []
  · subst h0
    simp [getFilters, additionalterms, nestedFilters]
  · rw [if_neg (by simp [h0])]

/-- Claim C9: a filter chain selecting a value on a facet name that has no
entry in `aggFieldsMapping` contributes nothing: appending such a chain to
the state's filters leaves the serialized body unchanged, so the facet
adds no `terms` clause to the post filter, no nested filter clause, and no
clause to any aggregation's exclusion filter. -/
theorem C9_unknown_facet_ignored (cfg : SerializerConfig) (st : SearchState)
    (n v : String) (h : lookupStr aggFieldsMapping n = none) :
    serialize cfg { st with filters := st.filters ++ [.leaf n v] } =
      serialize cfg st := by
  unfold serialize
  rw [filterParts_append_unknown cfg st.filters n v h]

/-- Witness for claim C9 at a concrete state: a selection on the unknown
facet `freemanualtags_agg` is dropped. -/
theorem C9_witness :
    serialize cfgW
        { stKomp with filters := stKomp.filters ++
            [.leaf "freemanualtags_agg" "tag1"] } =
      serialize cfgW stKomp :=
  C9_unknown_facet_ignored cfgW stKomp "freemanualtags_agg" "tag1" rfl

/-! ## Facts about `getFilters`, `aggFieldsMapping` and the nested clauses -/

theorem lookupStr_cons {α : Type} (k1 : String) (v1 : α)
    (rest : List (String × α)) (q : String) :
    lookupStr ((k1, v1) :: rest) q =
      if k1 = q then some v1 else lookupStr rest q := rfl

theorem lookupStr_mem {α : Type} {a : List (String × α)} {k : String}
    {v : α} (h : lookupStr a k = some v) : (k, v) ∈ a := by
  induction a with
  | nil => simp [lookupStr] at h
  | cons p rest ih =>
    obtain ⟨k1, v1⟩ := p
    by_cases hk : k1 = k
    · subst hk
      rw [lookupStr_cons, if_pos rfl] at h
      have hv := Option.some.inj h
      subst hv
      exact List.mem_cons_self _ _
    · rw [lookupStr_cons, if_neg hk] at h
      exact List.mem_cons_of_mem _ (ih h)

theorem lookupStr_eq_none_of_not_mem {α : Type} {a : List (String × α)}
    {k : String} (h : k ∉ a.map Prod.fst) : lookupStr a k = none := by
  induction a with
  | nil => rfl
  | cons p rest ih =>
    obtain ⟨k1, v1⟩ := p
    simp only [List.map_cons, List.mem_cons, not_or] at h
    rw [lookupStr_cons, if_neg (fun hh : k1 = k => h.1 hh.symm)]
    exact ih h.2

theorem keys_upsertValue (a : List (String × List String)) (k v : String) :
    (upsertValue a k v).map Prod.fst =
      if k ∈ a.map Prod.fst then a.map Prod.fst
      else a.map Prod.fst ++ [k] := by
  induction a with
  | nil => simp [upsertValue]
  | cons p rest ih =>
    obtain ⟨k1, vs1⟩ := p
    by_cases h : k1 = k
    · subst h
      simp [upsertValue]
    · simp only [upsertValue, if_neg h, List.map_cons, ih, List.mem_cons]
      by_cases h2 : k ∈ rest.map Prod.fst
      · rw [if_pos h2, if_pos (Or.inr h2)]
      · rw [if_neg h2, if_neg (by
          intro hc
          rcases hc with hc | hc
          · exact h hc.symm
          · exact h2 hc)]
        rfl

theorem nodup_keys_upsertValue (a : List (String × List String))
    (k v : String) (h : (a.map Prod.fst).Nodup) :
    ((upsertValue a k v).map Prod.fst).Nodup := by
  rw [keys_upsertValue]
  split
  · exact h
  · rename_i hk
    simp [List.nodup_append, h, hk]

theorem nodup_keys_getChildFilter (c : FilterChain)
    (a : List (String × List String)) (h : (a.map Prod.fst).Nodup) :
    ((getChildFilter a c).map Prod.fst).Nodup := by
  induction c generalizing a with
  | leaf n v => exact nodup_keys_upsertValue a n v h
  | node n v child ih => exact ih _ (nodup_keys_upsertValue a n v h)

theorem nodup_keys_getFilters (fs : List FilterChain) :
    ((getFilters fs).map Prod.fst).Nodup := by
  rw [show getFilters fs = fs.foldl getChildFilter [] from rfl]
  have H : ∀ (a : List (String × List String)), (a.map Prod.fst).Nodup →
      ((fs.foldl getChildFilter a).map Prod.fst).Nodup := by
    induction fs with
    | nil => intro a h; exact h
    | cons c fs ih =>
      intro a h
      exact ih _ (nodup_keys_getChildFilter c a h)
  exact H [] (by simp)

theorem aggFieldsMapping_lookup_of_mem {k f : String}
    (h : (k, f) ∈ aggFieldsMapping) :
    lookupStr aggFieldsMapping k = some f := by
  fin_cases h <;> rfl

theorem aggFieldsMapping_inj {k k' f : String}
    (h1 : lookupStr aggFieldsMapping k = some f)
    (h2 : lookupStr aggFieldsMapping k' = some f) : k = k' := by
  have m1 := lookupStr_mem h1
  fin_cases m1 <;>
  · simp only [aggFieldsMapping, lookupStr] at h2
    split_ifs at h2 with c1 c2 c3 c4
    all_goals first
      | assumption
      | exact absurd (Option.some.inj h2) (by decide)
      | exact absurd h2 (by decide)

theorem json_str_inj : Function.Injective Json.str := by
  intro x y h
  injection h

theorem nestedClauseJson_inj : Function.Injective nestedClauseJson := by
  intro a b h
  obtain ⟨pa, va⟩ := a
  obtain ⟨pb, vb⟩ := b
  simp only [nestedClauseJson, Json.obj.injEq, List.cons.injEq,
    Prod.mk.injEq, Json.str.injEq, Json.arr.injEq, and_true,
    true_and] at h
  obtain ⟨hp, -, hv⟩ := h
  have hval : va = vb := List.map_injective_iff.mpr json_str_inj hv
  simp [hp, hval]

theorem nestedClause_mem_of_lookup {nf : List String}
    {a : List (String × List String)} {k f : String} {vs : List String}
    (hl : lookupStr a k = some vs)
    (hm : lookupStr aggFieldsMapping k = some f) (hin : f ∈ nf) :
    (⟨f, vs⟩ : NestedClause) ∈ nestedFilters nf a := by
  rw [nestedFilters, List.mem_filterMap]
  exact ⟨(k, vs), lookupStr_mem hl, by simp [hm, hin]⟩

theorem nestedClause_not_mem_of_no_key {nf : List String}
    {a : List (String × List String)} {k f : String} (vs : List String)
    (hm : lookupStr aggFieldsMapping k = some f)
    (hk : k ∉ a.map Prod.fst) :
    (⟨f, vs⟩ : NestedClause) ∉ nestedFilters nf a := by
  intro hmem
  rw [nestedFilters, List.mem_filterMap] at hmem
  obtain ⟨p, hp, he⟩ := hmem
  rcases hcase : lookupStr aggFieldsMapping p.1 with _ | f'
  · simp [hcase] at he
  · simp only [hcase] at he
    split_ifs at he with hf
    · simp only [Option.some.injEq, NestedClause.mk.injEq] at he
      obtain ⟨hfe, hve⟩ := he
      subst hfe
      have hpk : p.1 = k := aggFieldsMapping_inj hcase hm
      exact hk (hpk ▸ List.mem_map.mpr ⟨p, hp, rfl⟩)

theorem nestedFilters_count_one {nf : List String}
    {a : List (String × List String)} {k f : String} {vs : List String}
    (hnd : (a.map Prod.fst).Nodup) (hl : lookupStr a k = some vs)
    (hm : lookupStr aggFieldsMapping k = some f) (hin : f ∈ nf) :
    (nestedFilters nf a).count (⟨f, vs⟩ : NestedClause) = 1 := by
  induction a with
  | nil => simp [lookupStr] at hl
  | cons p rest ih =>
    obtain ⟨k1, vs1⟩ := p
    simp only [List.map_cons, List.nodup_cons] at hnd
    by_cases hk : k1 = k
    · subst hk
      rw [lookupStr_cons, if_pos rfl] at hl
      have hveq : vs1 = vs := Option.some.inj hl
      rw [show nestedFilters nf ((k1, vs1) :: rest) =
          (⟨f, vs⟩ : NestedClause) :: nestedFilters nf rest by
        simp [nestedFilters, List.filterMap_cons, hm, hin, hveq]]
      rw [List.count_cons_self, List.count_eq_zero_of_not_mem
        (nestedClause_not_mem_of_no_key vs hm hnd.1)]
    · rw [lookupStr_cons, if_neg hk] at hl
      have htail := ih hnd.2 hl
      rcases hcase : lookupStr aggFieldsMapping k1 with _ | f1
      · rw [show nestedFilters nf ((k1, vs1) :: rest) =
            nestedFilters nf rest by
          simp [nestedFilters, List.filterMap_cons, hcase]]
        exact htail
      · by_cases hf1 : f1 ∈ nf
        · rw [show nestedFilters nf ((k1, vs1) :: rest) =
              (⟨f1, vs1⟩ : NestedClause) :: nestedFilters nf rest by
            simp [nestedFilters, List.filterMap_cons, hcase, hf1]]
          rw [List.count_cons_of_ne (by
            intro he
            rw [NestedClause.mk.injEq] at he
            exact hk (aggFieldsMapping_inj
              (show lookupStr aggFieldsMapping k1 = some f by
                rw [hcase, he.1]) hm))]
          exact htail
        · rw [show nestedFilters nf ((k1, vs1) :: rest) =
              nestedFilters nf rest by
            simp [nestedFilters, List.filterMap_cons, hcase, hf1]]
          exact htail

/-! ## Lookup through the aggregation construction (for claim C1) -/

theorem lookupStr_append_single_ne {α : Type} (dst : List (String × α))
    (k q : String) (v : α) (hq : k ≠ q) :
    lookupStr (dst ++ [(k, v)]) q = lookupStr dst q := by
  induction dst with
  | nil => simp [lookupStr, if_neg hq]
  | cons p rest ih =>
    obtain ⟨k1, v1⟩ := p
    rw [List.cons_append, lookupStr_cons, lookupStr_cons, ih]

theorem lookupStr_override_ne (dst : List (String × Json)) (k q : String)
    (v : Json) (hq : k ≠ q) :
    lookupStr (dst.map (fun p => if p.1 = k then (p.1, v) else p)) q =
      lookupStr dst q := by
  induction dst with
  | nil => rfl
  | cons p rest ih =>
    obtain ⟨k1, v1⟩ := p
    by_cases h1 : k1 = k
    · subst h1
      simp [lookupStr_cons, ih, hq]
    · simp [lookupStr_cons, ih, h1]

theorem lookupStr_override_self (dst : List (String × Json)) (k : String)
    (v : Json) (hc : k ∈ dst.map Prod.fst) :
    lookupStr (dst.map (fun p => if p.1 = k then (p.1, v) else p)) k =
      some v := by
  induction dst with
  | nil => simp at hc
  | cons p rest ih =>
    obtain ⟨k1, v1⟩ := p
    by_cases h1 : k1 = k
    · subst h1
      simp [lookupStr_cons]
    · simp only [List.map_cons, List.mem_cons] at hc
      rcases hc with hc | hc
      · exact absurd hc.symm h1
      · simp [lookupStr_cons, h1, ih hc]

theorem lookupStr_extendObj (dst : List (String × Json))
    (kv : String × Json) (q : String) :
    lookupStr (extendObj dst kv) q =
      if kv.1 = q then some kv.2 else lookupStr dst q := by
  obtain ⟨k, v⟩ := kv
  unfold extendObj
  by_cases hc : (dst.map Prod.fst).contains k
  · rw [if_pos hc]
    by_cases hq : k = q
    · subst hq
      rw [if_pos rfl]
      exact lookupStr_override_self dst k v (by simpa using hc)
    · rw [if_neg hq]
      exact lookupStr_override_ne dst k q v hq
  · rw [if_neg hc]
    by_cases hq : k = q
    · subst hq
      rw [if_pos rfl,
        lookupStr_append_left_none _
          (lookupStr_eq_none_of_not_mem (by simpa using hc))]
      simp [lookupStr]
    · rw [if_neg hq]
      exact lookupStr_append_single_ne dst k q v hq

theorem lookupStr_listAggStep_ne (lf : List String)
    (dst : List (String × Json)) (p : String × String) (q : String)
    (hq : p.1 ≠ q) :
    lookupStr (listAggStep lf dst p) q = lookupStr dst q := by
  unfold listAggStep
  split
  · rw [lookupStr_extendObj, if_neg hq]
  · rfl

theorem lookupStr_nestedAggStep_ne (nf : List String)
    (filter : List NestedClause) (dst : List (String × Json))
    (p : String × String) (q : String)
    (hq : (splitOnChar '.' p.1).headD "" ≠ q) :
    lookupStr (nestedAggStep nf filter dst p) q = lookupStr dst q := by
  unfold nestedAggStep
  split
  · rw [lookupStr_extendObj,
      show (nestedAggEntry filter p.1 p.2).1 =
        (splitOnChar '.' p.1).headD "" from rfl, if_neg hq]
  · rfl

theorem lookupStr_nestedAggStep_self (nf : List String)
    (filter : List NestedClause) (dst : List (String × Json))
    (p : String × String) (hin : p.2 ∈ nf) :
    lookupStr (nestedAggStep nf filter dst p)
        ((splitOnChar '.' p.1).headD "") =
      some (nestedAggEntry filter p.1 p.2).2 := by
  unfold nestedAggStep
  rw [if_pos hin, lookupStr_extendObj,
    show (nestedAggEntry filter p.1 p.2).1 =
      (splitOnChar '.' p.1).headD "" from rfl, if_pos rfl]

theorem lookupStr_buildAggs_self (cfg : SerializerConfig)
    (filter : List NestedClause) {aggName fieldName : String}
    (hmem : (aggName, fieldName) ∈ aggFieldsMapping)
    (hin : fieldName ∈ cfg.nestedFilterFields) :
    lookupStr (buildAggs cfg filter) ((splitOnChar '.' aggName).headD "") =
      some (nestedAggEntry filter aggName fieldName).2 := by
  unfold buildAggs
  fin_cases hmem
  · simp only [aggFieldsMapping, List.foldl_cons, List.foldl_nil]
    rw [lookupStr_nestedAggStep_ne _ _ _ _ _ (by decide),
      lookupStr_nestedAggStep_ne _ _ _ _ _ (by decide),
      lookupStr_nestedAggStep_ne _ _ _ _ _ (by decide)]
    exact lookupStr_nestedAggStep_self _ _ _ _ hin
  · simp only [aggFieldsMapping, List.foldl_cons, List.foldl_nil]
    rw [lookupStr_nestedAggStep_ne _ _ _ _ _ (by decide),
      lookupStr_nestedAggStep_ne _ _ _ _ _ (by decide)]
    exact lookupStr_nestedAggStep_self _ _ _ _ hin
  · simp only [aggFieldsMapping, List.foldl_cons, List.foldl_nil]
    rw [lookupStr_nestedAggStep_ne _ _ _ _ _ (by decide)]
    exact lookupStr_nestedAggStep_self _ _ _ _ hin
  · simp only [aggFieldsMapping, List.foldl_cons, List.foldl_nil]
    exact lookupStr_nestedAggStep_self _ _ _ _ hin

theorem startsWith_self_aggFieldsMapping {k f : String}
    (h : (k, f) ∈ aggFieldsMapping) :
    strStartsWith ((splitOnChar '.' k).headD "") f = true := by
  fin_cases h <;> decide

theorem startsWith_cross_aggFieldsMapping {k f k' f' : String}
    (h : (k, f) ∈ aggFieldsMapping) (h' : (k', f') ∈ aggFieldsMapping)
    (hne : k ≠ k') :
    strStartsWith ((splitOnChar '.' k').headD "") f = false := by
  fin_cases h <;> fin_cases h' <;>
    first
      | exact absurd rfl hne
      | decide

theorem aggWrapFilter_some {body a e fj bb : Json} {k : String}
    {l : List Json} (h1 : jGet body "aggs" = some a)
    (h2 : jGet a k = some e) (h3 : jGet e "filter" = some fj)
    (h4 : jGet fj "bool" = some bb)
    (h5 : jGet bb "filter" = some (Json.arr l)) :
    aggWrapFilter body k = some (Json.arr l) := by
  simp [aggWrapFilter, h1, h2, h3, h4, h5]

theorem aggWrapFilter_serialize {cfg : SerializerConfig} {st : SearchState}
    {aggName fieldName : String}
    (hmem : (aggName, fieldName) ∈ aggFieldsMapping)
    (hin : fieldName ∈ cfg.nestedFilterFields) (hne0 : st.filters ≠ [])
    (hnil : nestedFilters cfg.nestedFilterFields (getFilters st.filters) ≠
      []) :
    aggWrapFilter (serialize cfg st) ((splitOnChar '.' aggName).headD "") =
      some (Json.arr
        (((nestedFilters cfg.nestedFilterFields
            (getFilters st.filters)).filter
          (fun el => !(strStartsWith ((splitOnChar '.' aggName).headD "")
            el.path))).map nestedClauseJson)) := by
  have hfp : (filterParts cfg st.filters).2 =
      nestedFilters cfg.nestedFilterFields (getFilters st.filters) := by
    unfold filterParts
    rw [if_neg (by simp [hne0])]
  set A0 := (splitOnChar '.' aggName).headD "" with hA0
  set FLT := nestedFilters cfg.nestedFilterFields (getFilters st.filters)
    with hFLT
  set L := (FLT.filter
      (fun el => !(strStartsWith A0 el.path))).map nestedClauseJson
    with hLdef
  have hflt : aggregation_filter FLT A0 =
      Json.obj [("bool", Json.obj [("filter", Json.arr L)])] := by
    unfold aggregation_filter
    rw [if_neg (by simp [hnil]), hLdef]
  have hentry : (nestedAggEntry FLT aggName fieldName).2 =
      Json.obj [("aggs", nestedAggInner fieldName
          ((splitOnChar '.' aggName).getD 2 "")),
        ("filter", aggregation_filter FLT A0)] := by
    simp only [nestedAggEntry]
    rw [← hA0, hflt]
    rfl
  have h1 : jGet (serialize cfg st) "aggs" =
      some (Json.obj (buildAggs cfg FLT)) := by
    rw [jGet_serialize_aggs, hfp]
  have h2 : jGet (Json.obj (buildAggs cfg FLT)) A0 =
      some ((nestedAggEntry FLT aggName fieldName).2) := by
    rw [show jGet (Json.obj (buildAggs cfg FLT)) A0 =
        lookupStr (buildAggs cfg FLT) A0 from rfl, hA0,
      lookupStr_buildAggs_self cfg FLT hmem hin]
  have h3 : jGet ((nestedAggEntry FLT aggName fieldName).2) "filter" =
      some (aggregation_filter FLT A0) := by
    rw [hentry]
    rw [show jGet (Json.obj [("aggs", nestedAggInner fieldName
        ((splitOnChar '.' aggName).getD 2 "")),
        ("filter", aggregation_filter FLT A0)]) "filter" =
        lookupStr [("aggs", nestedAggInner fieldName
          ((splitOnChar '.' aggName).getD 2 "")),
          ("filter", aggregation_filter FLT A0)] "filter" from rfl,
      lookupStr_cons, if_neg (by decide : ¬("aggs" : String) = "filter"),
      lookupStr_cons, if_pos rfl]
  have h4 : jGet (aggregation_filter FLT A0) "bool" =
      some (Json.obj [("filter", Json.arr L)]) := by
    rw [hflt]
    rfl
  have h5 : jGet (Json.obj [("filter", Json.arr L)]) "filter" =
      some (Json.arr L) := rfl
  exact aggWrapFilter_some h1 h2 h3 h4 h5

/-! ## Claim C1: self-exclusion of the aggregation filters -/

/-- Claim C1: when the state selects at least one value on a nested,
configured facet F, the aggregation entry that `serialize` builds for F
wraps its terms aggregation in a filter that excludes F's own
selected-terms clause, while the entry built for any other configured
nested facet G includes F's selected-terms clause in its wrapping filter. -/
theorem C1_self_exclusion (cfg : SerializerConfig) (st : SearchState)
    (Fagg fF Gagg fG : String) (vs : List String)
    (hmemF : (Fagg, fF) ∈ aggFieldsMapping)
    (hmemG : (Gagg, fG) ∈ aggFieldsMapping) (hne : Fagg ≠ Gagg)
    (hFn : fF ∈ cfg.nestedFilterFields) (hGn : fG ∈ cfg.nestedFilterFields)
    (hsel : lookupStr (getFilters st.filters) Fagg = some vs) :
    ∃ lF lG : List Json,
      aggWrapFilter (serialize cfg st)
          ((splitOnChar '.' Fagg).headD "") = some (Json.arr lF) ∧
      nestedClauseJson ⟨fF, vs⟩ ∉ lF ∧
      aggWrapFilter (serialize cfg st)
          ((splitOnChar '.' Gagg).headD "") = some (Json.arr lG) ∧
      nestedClauseJson ⟨fF, vs⟩ ∈ lG := by
  have hmapF := aggFieldsMapping_lookup_of_mem hmemF
  have hFstart := startsWith_self_aggFieldsMapping hmemF
  have hGstart := startsWith_cross_aggFieldsMapping hmemF hmemG hne
  rw [List.headD_eq_head?_getD] at hFstart
  rw [List.headD_eq_head?_getD] at hGstart
  have hne0 : st.filters ≠ [] := by
    intro h0
    rw [h0] at hsel
    simp [getFilters, lookupStr] at hsel
  have hclause : (⟨fF, vs⟩ : NestedClause) ∈
      nestedFilters cfg.nestedFilterFields (getFilters st.filters) :=
    nestedClause_mem_of_lookup hsel hmapF hFn
  have hnil : nestedFilters cfg.nestedFilterFields (getFilters st.filters) ≠
      [] := List.ne_nil_of_mem hclause
  refine ⟨_, _, aggWrapFilter_serialize hmemF hFn hne0 hnil, ?_,
    aggWrapFilter_serialize hmemG hGn hne0 hnil, ?_⟩
  · intro hmemb
    obtain ⟨c, hcf, hce⟩ := List.mem_map.mp hmemb
    have hc2 := nestedClauseJson_inj hce
    subst hc2
    have hpred := (List.mem_filter.mp hcf).2
    simp [hFstart] at hpred
  · exact List.mem_map.mpr ⟨⟨fF, vs⟩,
      List.mem_filter.mpr ⟨hclause, by simp [hGstart]⟩, rfl⟩

/-- Witness for claim C1 at a concrete state: a selection on the
`kompasscomponent` facet, against the `targetaudience` facet. -/
theorem C1_witness :
    ∃ lF lG : List Json,
      aggWrapFilter (serialize cfgW stKomp)
          ((splitOnChar '.'
            "kompasscomponent_agg.inner.kompasscomponent_token").headD "") =
        some (Json.arr lF) ∧
      nestedClauseJson ⟨"kompasscomponent", ["BEW"]⟩ ∉ lF ∧
      aggWrapFilter (serialize cfgW stKomp)
          ((splitOnChar '.'
            "targetaudience_agg.inner.targetaudience_token").headD "") =
        some (Json.arr lG) ∧
      nestedClauseJson ⟨"kompasscomponent", ["BEW"]⟩ ∈ lG :=
  C1_self_exclusion cfgW stKomp
    "kompasscomponent_agg.inner.kompasscomponent_token" "kompasscomponent"
    "targetaudience_agg.inner.targetaudience_token" "targetaudience"
    ["BEW"] (by decide) (by decide) (by decide) (by decide) (by decide) rfl

/-! ## Claim C5: the nested post-filter clauses -/

/-- Claim C5: the post filter's `bool.filter` key is present exactly when
there is at least one nested-facet clause, in which case it is the array of
the `nestedClauseJson` renderings
(`{nested: {path, query: {bool: {must: [{terms: {path.token: values}}]}}}}`)
of the nested clauses; and each selected facet whose mapped field is a
nested filter field contributes exactly one such clause. -/
theorem C5_nested_post_filter (cfg : SerializerConfig) (st : SearchState) :
    ((jGet (serialize cfg st) "post_filter").bind
        (fun pf => jGet pf "bool")).bind (fun b => jGet b "filter") =
      (if (filterParts cfg st.filters).2.isEmpty then none
       else some (Json.arr
         ((filterParts cfg st.filters).2.map nestedClauseJson))) ∧
    (∀ agg f vs, lookupStr aggFieldsMapping agg = some f →
      f ∈ cfg.nestedFilterFields →
      lookupStr (getFilters st.filters) agg = some vs →
      ((filterParts cfg st.filters).2.map nestedClauseJson).count
        (nestedClauseJson ⟨f, vs⟩) = 1) := by
  constructor
  · rw [jGet_serialize_post_filter]
    by_cases hemp : (filterParts cfg st.filters).2.isEmpty = true
    · simp [postFilterJson, jGet, lookupStr, hemp,
        show ("must" : String) ≠ "filter" by decide]
    · simp [postFilterJson, jGet, lookupStr, hemp,
        show ("must" : String) ≠ "filter" by decide]
  · intro agg f vs hm hin hl
    have hne0 : st.filters ≠ [] := by
      intro h0
      rw [h0] at hl
      simp [getFilters, lookupStr] at hl
    have hfp : (filterParts cfg st.filters).2 =
        nestedFilters cfg.nestedFilterFields (getFilters st.filters) := by
      unfold filterParts
      rw [if_neg (by simp [hne0])]
    rw [hfp, List.count_map_of_injective _ _ nestedClauseJson_inj]
    exact nestedFilters_count_one (nodup_keys_getFilters st.filters) hl hm hin

/-- Witness for claim C5 at a concrete state: the single selection on
`kompasscomponent` yields exactly one nested clause. -/
theorem C5_witness :
    ((filterParts cfgW stKomp.filters).2.map nestedClauseJson).count
      (nestedClauseJson ⟨"kompasscomponent", ["BEW"]⟩) = 1 :=
  (C5_nested_post_filter cfgW stKomp).2
    "kompasscomponent_agg.inner.kompasscomponent_token" "kompasscomponent"
    ["BEW"] rfl (by decide) rfl

/-! ## Claim C10: post filter and aggregations are always present -/

/-- Claim C10: for every state the body has a `post_filter` key whose
`bool.must` list starts with the two global terms clauses (allowed content
types, then allowed review states), and an `aggs` key. -/
theorem C10_post_filter_always (cfg : SerializerConfig) (st : SearchState) :
    (∃ rest extra,
      jGet (serialize cfg st) "post_filter" =
        some (Json.obj [("bool", Json.obj
          (("must", Json.arr (globalTerms cfg ++ rest)) :: extra))])) ∧
    (∃ a, jGet (serialize cfg st) "aggs" = some a) := by
  constructor
  · rw [jGet_serialize_post_filter]
    unfold postFilterJson filterParts
    split
    · exact ⟨[], _, by rw [List.append_nil]⟩
    · exact ⟨_, _, rfl⟩
  · exact ⟨_, jGet_serialize_aggs cfg st⟩

end Searchkit
